import Mathlib

/-!
Verification development for the BeatBrain conversion utilities
(`src/beatbrain/utils.py`).

The embedding models 2-D numpy arrays of floats as lists of rows of
rationals (the numerically interesting identities claimed about the code
are exact-arithmetic identities, so ℚ is the faithful idealization), and
fallible numpy calls (np.split raising ValueError) as Option.  The
batch-processing harness and the data-type detector are modelled over an
explicit file-system input type; raising ValueError is modelled as
Except.error.
-/

namespace BeatBrain

/-- Matrices (2-D numpy arrays) as lists of rows of rationals. -/
abbrev Mat := List (List ℚ)

/-- Number of columns of a 2-D array (numpy shape[-1]), read off the first
row; 0 for an array with no rows. -/
def lastDim (spec : Mat) : ℕ :=
  (spec.head?.map List.length).getD 0

/-- Rectangularity invariant of a 2-D numpy array: every row has length w. -/
def IsRect (spec : Mat) (w : ℕ) : Prop :=
  ∀ row ∈ spec, row.length = w

/-- Python slice row[:-r] as used at utils.py line 92: for r > 0 it keeps all
but the last r entries; for r = 0 it is row[:0] = [], because -0 is 0. -/
def sliceDropLast (r : ℕ) (row : List ℚ) : List ℚ :=
  if r = 0 then [] else row.take (row.length - r)

/-- Appending k zero columns to a row, as np.pad(spec, ((0,0),(0,k)),
mode=constant) at utils.py line 94 does to each row. -/
def padRow (k : ℕ) (row : List ℚ) : List ℚ :=
  row ++ List.replicate k 0

/-- Embeds np.split(spec, n, axis=1) at utils.py line 95: n equal column
blocks when n is positive and divides the width; none models the exception
numpy raises otherwise. -/
def npSplitCols (spec : Mat) (n : ℕ) : Option (List Mat) :=
  if n ≠ 0 ∧ lastDim spec % n = 0 then
    some ((List.range n).map (fun i =>
      spec.map (fun row => (row.drop (i * (lastDim spec / n))).take (lastDim spec / n))))
  else none

/-- Embeds spec_to_chunks (utils.py lines 77-98).  none models the exception
raised by np.split when its section count is 0. -/
def spec_to_chunks (spec : Mat) (chunk_size : ℕ) (truncate : Bool) : Option (List Mat) :=
  if chunk_size ≤ lastDim spec then
    let remainder := lastDim spec % chunk_size
    let spec2 := if truncate then spec.map (sliceDropLast remainder)
      else spec.map (padRow (chunk_size - remainder))
    npSplitCols spec2 (lastDim spec2 / chunk_size)
  else
    some [spec]

/-- Columnwise concatenation of two matrices with equally many rows. -/
def hcat (a b : Mat) : Mat :=
  List.zipWith (· ++ ·) a b

/-- Embeds np.concatenate(chunks, axis=-1) as used by convert_numpy_to_audio
at utils.py line 222. -/
def concatChunks : List Mat → Mat
  | [] => []
  | [c] => c
  | c :: rest => hcat c (concatChunks rest)

/-- Minimum of a flattened numpy array (a.min()); 0 for the empty array,
where numpy raises instead. -/
def arrMin : List ℚ → ℚ
  | [] => 0
  | x :: xs => xs.foldl min x

/-- Maximum of a flattened numpy array (a.max()); 0 for the empty array,
where numpy raises instead. -/
def arrMax : List ℚ → ℚ
  | [] => 0
  | x :: xs => xs.foldl max x

/-- spec.min() over a 2-D array. -/
def matMin (m : Mat) : ℚ := arrMin m.flatten

/-- spec.max() over a 2-D array. -/
def matMax (m : Mat) : ℚ := arrMax m.flatten

/-- np.abs(spec).max() over a 2-D array. -/
def matAbsMax (m : Mat) : ℚ := arrMax (m.flatten.map (fun x => |x|))

/-- Embeds the normalization of utils.py lines 123-124 (identically lines
159-160): spec = spec - spec.min(); spec = spec / np.abs(spec).max(). -/
def normalizeSpec (m : Mat) : Mat :=
  let shifted := m.map (List.map (fun x => x - matMin m))
  shifted.map (List.map (fun x => x / matAbsMax shifted))

/-- Embeds the elementwise de-normalization map of utils.py line 223:
v maps to top_db * (v - 1). -/
def denormSpec (top_db : ℚ) (m : Mat) : Mat :=
  m.map (List.map (fun v => top_db * (v - 1)))

/-- Modelled from the spec: settings.py is not under src/, so the numeric
value of settings.TOP_DB is missing.  The spec describes one per-file
feature extraction shared by the numpy and the image converters, and the
image converter calls librosa.power_to_db without a top_db argument, hence
with the library default 80.0; the shared-pipeline description therefore
fixes TOP_DB = 80. -/
def TOP_DB : ℚ := 80

/-- Clipping stage of librosa.power_to_db(S, ref=np.max, top_db=t), namely
np.maximum(log_spec, log_spec.max() - top_db), applied to the raw
(pre-clip) decibel matrix; the raw decibel matrix itself is computed
identically by both audio converters from the same mel spectrogram. -/
def clipDb (t : ℚ) (R : Mat) : Mat :=
  R.map (List.map (fun x => max x (matMax R - t)))

/-- Normalized spectrogram chunks computed by convert_audio_to_numpy
(utils.py lines 122-125) from the raw decibel matrix R. -/
def audioToNumpyFeatures (R : Mat) (chunk_size : ℕ) (truncate : Bool) : Option (List Mat) :=
  spec_to_chunks (normalizeSpec (clipDb TOP_DB R)) chunk_size truncate

/-- Normalized spectrogram chunks computed by convert_audio_to_image
(utils.py lines 158-161) from the same raw decibel matrix R, before the
image-specific vertical flip and before serialization; its power_to_db call
passes no top_db and so uses librosa's default 80. -/
def audioToImageFeatures (R : Mat) (chunk_size : ℕ) (truncate : Bool) : Option (List Mat) :=
  spec_to_chunks (normalizeSpec (clipDb 80 R)) chunk_size truncate

/-- Claim-side reading of C2: spec zero-padded on the last axis to the
smallest multiple of chunk_size that is at least spec.shape[-1]. -/
def padToLeastMultiple (chunk_size : ℕ) (spec : Mat) : Mat :=
  spec.map (padRow (chunk_size * ((lastDim spec + chunk_size - 1) / chunk_size) - lastDim spec))

/-- Number of zero columns the non-truncating chunker actually appends:
chunk_size - (width % chunk_size) when width is at least chunk_size, and 0
otherwise (the small-input branch at utils.py line 97 pads nothing). -/
def codePadAmt (chunk_size w : ℕ) : ℕ :=
  if chunk_size ≤ w then chunk_size - w % chunk_size else 0

/-- Embeds the DataType enum (utils.py lines 19-26); in the Python enum,
ARRAY is an alias of NUMPY (both equal 2) and so is not a distinct member. -/
inductive DataType where
  | Audio
  | NUMPY
  | IMAGE
  | UNKNOWN
  | AMBIGUOUS
  | ERROR
deriving DecidableEq

/-- Embeds SUPPORTED_EXTENSIONS (utils.py lines 29-33). -/
def SUPPORTED_EXTENSIONS : DataType → List String
  | .Audio => ["wav", "flac", "mp3", "ogg"]
  | .NUMPY => ["npy", "npz"]
  | .IMAGE => ["tiff"]
  | _ => []

/-- Model of a regular file: its pathlib suffix without the leading dot
(f.suffix[1:] at utils.py line 60, the empty string when the name has no
extension) together with its contents, which get_data_type never reads. -/
structure FSFile where
  suffix : String
  content : String
deriving DecidableEq

/-- Model of the path argument of get_data_type: an existing regular file,
an existing directory together with the regular files below it
(path.rglob filtered by is_file), or a path that exists as neither. -/
inductive PathInput where
  | file (f : FSFile)
  | dir (files : List FSFile)
  | missing
deriving DecidableEq

/-- Regular files enumerated by get_data_type (utils.py lines 53-57): the
path itself when it is a file, the recursive regular-file listing for a
directory, and nothing for a path that is neither. -/
def filesOf : PathInput → List FSFile
  | .file f => [f]
  | .dir fs => fs
  | .missing => []

/-- Set of data types collected at utils.py lines 58-62, represented as the
sublist of [AUDIO, NUMPY, IMAGE] whose extension list contains the suffix
of some file; as a set of types this is exactly found_types. -/
def foundTypes (files : List FSFile) : List DataType :=
  [DataType.Audio, DataType.NUMPY, DataType.IMAGE].filter
    (fun dt => files.any (fun f => (SUPPORTED_EXTENSIONS dt).contains f.suffix))

/-- Embeds get_data_type (utils.py lines 36-74); Except.error models the
ValueError raised when raise_exception is true. -/
def get_data_type (path : PathInput) (raise_exception : Bool) : Except String DataType :=
  match foundTypes (filesOf path) with
  | [] =>
    if raise_exception then .error "Unknown source data type. No known file types we matched."
    else .ok .UNKNOWN
  | [dt] => .ok dt
  | _ =>
    if raise_exception then .error "Ambiguous source data type."
    else .ok .AMBIGUOUS

/-- Names of the converter batch loops a dispatcher can invoke. -/
inductive ConverterCall where
  | audio_to_numpy
  | image_to_numpy
  | audio_to_image
  | numpy_to_image
  | numpy_to_audio
  | image_to_audio
deriving DecidableEq

/-- Embeds convert_to_numpy (utils.py lines 251-262): the result is the
invoked converter, or none when the single detected type matches no branch
and the function falls through returning None. -/
def convert_to_numpy (inp : PathInput) : Except String (Option ConverterCall) :=
  match get_data_type inp true with
  | .error e => .error e
  | .ok dt =>
    if dt = .Audio then .ok (some .audio_to_numpy)
    else if dt = .IMAGE then .ok (some .image_to_numpy)
    else .ok none

/-- Embeds convert_to_image (utils.py lines 265-275). -/
def convert_to_image (inp : PathInput) : Except String (Option ConverterCall) :=
  match get_data_type inp true with
  | .error e => .error e
  | .ok dt =>
    if dt = .Audio then .ok (some .audio_to_image)
    else if dt = .NUMPY then .ok (some .numpy_to_image)
    else .ok none

/-- Embeds convert_to_audio (utils.py lines 278-290). -/
def convert_to_audio (inp : PathInput) : Except String (Option ConverterCall) :=
  match get_data_type inp true with
  | .error e => .error e
  | .ok dt =>
    if dt = .NUMPY then .ok (some .numpy_to_audio)
    else if dt = .IMAGE then .ok (some .image_to_audio)
    else .ok none

/-- Dispatch table of convert_to_numpy for a single detected type. -/
def numpyDispatch : DataType → Option ConverterCall
  | .Audio => some .audio_to_numpy
  | .IMAGE => some .image_to_numpy
  | _ => none

/-- Dispatch table of convert_to_image for a single detected type. -/
def imageDispatch : DataType → Option ConverterCall
  | .Audio => some .audio_to_image
  | .NUMPY => some .numpy_to_image
  | _ => none

/-- Dispatch table of convert_to_audio for a single detected type. -/
def audioDispatch : DataType → Option ConverterCall
  | .NUMPY => some .numpy_to_audio
  | .IMAGE => some .image_to_audio
  | _ => none

/-- Whether an Except value is an error (a raised ValueError). -/
def raised {α : Type} : Except String α → Bool
  | .error _ => true
  | .ok _ => false

/-- Embeds convert_image_to_numpy (utils.py lines 132-134), whose whole body
is pass: the result pairs the Python return value (modelled as Option Unit,
none standing for None) with the list of files written, which is empty. -/
def convert_image_to_numpy (inp : PathInput) (out_dir : String) (flip : Bool)
    (skip : ℕ) : Option Unit × List FSFile :=
  (none, [])

/-- Embeds the batch-loop skip pattern shared by the converters (utils.py
lines 116-118, 152-154, 184-186, 213-215): enumerate the natural-sorted
paths and process index i only when skip is at most i; the result lists the
processed paths in order. -/
def batchLoop (paths : List String) (skip : ℕ) : List String :=
  (paths.enum.filter (fun ip => decide (skip ≤ ip.1))).map Prod.snd

/-! Helper lemmas about the fold-based array minimum and maximum. -/

/-- Unfolding lemma for arrMax on a nonempty list. -/
@[simp] theorem arrMax_cons (x : ℚ) (xs : List ℚ) : arrMax (x :: xs) = xs.foldl max x := rfl

/-- Unfolding lemma for arrMin on a nonempty list. -/
@[simp] theorem arrMin_cons (x : ℚ) (xs : List ℚ) : arrMin (x :: xs) = xs.foldl min x := rfl

theorem le_foldl_max_init (xs : List ℚ) : ∀ a : ℚ, a ≤ xs.foldl max a := by
  induction xs with
  | nil => intro a; simp
  | cons y ys ih => intro a; exact le_trans (le_max_left a y) (ih (max a y))

theorem le_foldl_max_mem (xs : List ℚ) : ∀ (a x : ℚ), x ∈ xs → x ≤ xs.foldl max a := by
  induction xs with
  | nil => intro a x hx; simp at hx
  | cons y ys ih =>
    intro a x hx
    rcases List.mem_cons.mp hx with h | h
    · subst h; exact le_trans (le_max_right a x) (le_foldl_max_init ys (max a x))
    · exact ih (max a y) x h

theorem foldl_max_mem (xs : List ℚ) : ∀ a : ℚ, xs.foldl max a = a ∨ xs.foldl max a ∈ xs := by
  induction xs with
  | nil => intro a; left; rfl
  | cons y ys ih =>
    intro a
    rcases ih (max a y) with h | h
    · rcases max_choice a y with h2 | h2
      · left; rw [List.foldl_cons, h, h2]
      · right; rw [List.foldl_cons, h, h2]; exact List.mem_cons_self y ys
    · right; exact List.mem_cons_of_mem y h

theorem foldl_min_init_le (xs : List ℚ) : ∀ a : ℚ, xs.foldl min a ≤ a := by
  induction xs with
  | nil => intro a; simp
  | cons y ys ih => intro a; exact le_trans (ih (min a y)) (min_le_left a y)

theorem foldl_min_mem_le (xs : List ℚ) : ∀ (a x : ℚ), x ∈ xs → xs.foldl min a ≤ x := by
  induction xs with
  | nil => intro a x hx; simp at hx
  | cons y ys ih =>
    intro a x hx
    rcases List.mem_cons.mp hx with h | h
    · subst h; exact le_trans (foldl_min_init_le ys (min a x)) (min_le_right a x)
    · exact ih (min a y) x h

theorem le_arrMax {l : List ℚ} {x : ℚ} (hx : x ∈ l) : x ≤ arrMax l := by
  cases l with
  | nil => simp at hx
  | cons y ys =>
    rcases List.mem_cons.mp hx with h | h
    · subst h; exact le_foldl_max_init ys x
    · exact le_foldl_max_mem ys y x h

theorem arrMin_le {l : List ℚ} {x : ℚ} (hx : x ∈ l) : arrMin l ≤ x := by
  cases l with
  | nil => simp at hx
  | cons y ys =>
    rcases List.mem_cons.mp hx with h | h
    · subst h; exact foldl_min_init_le ys x
    · exact foldl_min_mem_le ys y x h

theorem foldl_max_map (f : ℚ → ℚ) (hf : ∀ a b, f (max a b) = max (f a) (f b)) :
    ∀ (xs : List ℚ) (a : ℚ), (xs.map f).foldl max (f a) = f (xs.foldl max a) := by
  intro xs
  induction xs with
  | nil => intro a; rfl
  | cons y ys ih =>
    intro a
    rw [List.map_cons, List.foldl_cons, List.foldl_cons, ← hf, ih]

theorem arrMax_map (f : ℚ → ℚ) (hf : ∀ a b, f (max a b) = max (f a) (f b))
    {l : List ℚ} (h : l ≠ []) : arrMax (l.map f) = f (arrMax l) := by
  cases l with
  | nil => exact absurd rfl h
  | cons x xs => simpa using foldl_max_map f hf xs x

theorem arrMax_map_sub (c : ℚ) {l : List ℚ} (h : l ≠ []) :
    arrMax (l.map (fun x => x - c)) = arrMax l - c :=
  arrMax_map _ (fun a b => (max_sub_sub_right a b c).symm) h

theorem arrMax_map_div {c : ℚ} (hc : 0 ≤ c) {l : List ℚ} (h : l ≠ []) :
    arrMax (l.map (fun x => x / c)) = arrMax l / c :=
  arrMax_map _ (fun a b => (max_div_div_right hc a b).symm) h

theorem map_id_of_mem {α : Type} {l : List α} {f : α → α} (h : ∀ x ∈ l, f x = x) :
    l.map f = l := by
  have h2 : l.map f = l.map id := List.map_congr_left h
  rw [h2, List.map_id]

theorem map_abs_of_nonneg {l : List ℚ} (h : ∀ x ∈ l, 0 ≤ x) :
    l.map (fun x => |x|) = l :=
  map_id_of_mem (fun x hx => abs_of_nonneg (h x hx))

/-! Structure of the normalization step. -/

theorem flatten_map_map (f : ℚ → ℚ) (m : Mat) :
    (m.map (List.map f)).flatten = m.flatten.map f :=
  (List.map_flatten f m).symm

theorem normalizeSpec_eq (m : Mat) :
    normalizeSpec m = m.map (List.map (fun x =>
      (x - matMin m) / matAbsMax (m.map (List.map (fun y => y - matMin m))))) := by
  unfold normalizeSpec
  rw [List.map_map]
  apply List.map_congr_left
  intro row _
  simp only [Function.comp_apply, List.map_map]
  rfl

theorem matAbsMax_shifted (m : Mat) (hne : m.flatten ≠ []) :
    matAbsMax (m.map (List.map (fun y => y - matMin m))) = matMax m - matMin m := by
  unfold matAbsMax
  rw [flatten_map_map]
  rw [map_abs_of_nonneg ?hpos]
  case hpos =>
    intro y hy
    obtain ⟨x, hx, rfl⟩ := List.mem_map.mp hy
    exact sub_nonneg.mpr (arrMin_le hx)
  exact arrMax_map_sub _ hne

/-- C4 counterexample: on the constant array [[5, 5]] the shifted array is
all zeros, np.abs(spec).max() is 0, and the division step divides by zero
(NaN entries in numpy; junk value 0 in the exact-arithmetic model), so the
normalized maximum is not 1 and the step is not well-defined. -/
theorem c4_counterexample :
    matMin [[(5:ℚ), 5]] = matMax [[(5:ℚ), 5]] ∧
    matAbsMax ([[(5:ℚ), 5]].map (List.map (fun y => y - matMin [[(5:ℚ), 5]]))) = 0 ∧
    matMax (normalizeSpec [[(5:ℚ), 5]]) ≠ 1 := by
  refine ⟨by norm_num [matMin, matMax, arrMin, arrMax, min_def, max_def], ?_, ?_⟩
  · norm_num [matAbsMax, matMin, arrMin, arrMax, min_def, max_def, abs_of_nonneg]
  · norm_num [normalizeSpec, matMin, matMax, matAbsMax, arrMin, arrMax, min_def, max_def]

/-- C4 (amended): for every nonconstant real array (minimum strictly below
maximum, so the divisor np.abs(spec - spec.min()).max() is nonzero), the
normalization step of utils.py lines 123-124 produces entries in [0, 1]
with maximum exactly 1; on constant arrays the divisor is 0 and the claimed
postcondition fails. -/
theorem c4_normalize_bounds (m : Mat) (hne : m.flatten ≠ [])
    (hlt : matMin m < matMax m) :
    (∀ x ∈ (normalizeSpec m).flatten, 0 ≤ x ∧ x ≤ 1) ∧
    matMax (normalizeSpec m) = 1 := by
  have hsub : matAbsMax (m.map (List.map (fun y => y - matMin m))) = matMax m - matMin m :=
    matAbsMax_shifted m hne
  have hspos : 0 < matMax m - matMin m := sub_pos.mpr hlt
  have hflat : (normalizeSpec m).flatten
      = m.flatten.map (fun x => (x - matMin m) / (matMax m - matMin m)) := by
    rw [normalizeSpec_eq]
    simp only [hsub]
    exact flatten_map_map _ m
  constructor
  · intro x hx
    rw [hflat] at hx
    obtain ⟨y, hy, rfl⟩ := List.mem_map.mp hx
    refine ⟨div_nonneg (sub_nonneg.mpr (arrMin_le hy)) hspos.le, ?_⟩
    rw [div_le_one hspos]
    exact sub_le_sub_right (le_arrMax hy) _
  · have h2 : m.flatten.map (fun x => (x - matMin m) / (matMax m - matMin m))
        = (m.flatten.map (fun x => x - matMin m)).map (fun x => x / (matMax m - matMin m)) := by
      rw [List.map_map]
      rfl
    unfold matMax
    rw [hflat, h2, arrMax_map_div hspos.le, arrMax_map_sub _ hne]
    · exact div_self hspos.ne'
    · intro hmap
      exact hne (List.map_eq_nil_iff.mp hmap)

/-- C4 witness: the nonconstant array [[0, 1]] satisfies the hypotheses and
its normalization has entries in [0, 1] with maximum 1. -/
theorem c4_witness :
    ([[(0:ℚ), 1]] : Mat).flatten ≠ [] ∧ matMin [[(0:ℚ), 1]] < matMax [[(0:ℚ), 1]] ∧
    ((∀ x ∈ (normalizeSpec [[(0:ℚ), 1]]).flatten, 0 ≤ x ∧ x ≤ 1) ∧
      matMax (normalizeSpec [[(0:ℚ), 1]]) = 1) :=
  ⟨by simp, by norm_num [matMin, matMax, arrMin, arrMax, min_def, max_def],
    c4_normalize_bounds _ (by simp)
      (by norm_num [matMin, matMax, arrMin, arrMax, min_def, max_def])⟩

/-- Roundtrip identity behind C3: for an array with maximum 0 whose minimum
is exactly -t (the clip at top_db = t is active), de-normalization with
factor t undoes the normalization. -/
theorem denorm_normalize_of_full_range (t : ℚ) (ht : 0 < t) (m : Mat)
    (hne : m.flatten ≠ []) (hmax : matMax m = 0) (hmin : matMin m = -t) :
    denormSpec t (normalizeSpec m) = m := by
  have hsub : matAbsMax (m.map (List.map (fun y => y - matMin m))) = t := by
    rw [matAbsMax_shifted m hne, hmax, hmin]
    ring
  have ht' : t ≠ 0 := ht.ne'
  rw [normalizeSpec_eq]
  simp only [hsub]
  unfold denormSpec
  rw [List.map_map]
  apply map_id_of_mem
  intro row _
  simp only [Function.comp_apply, List.map_map]
  apply map_id_of_mem
  intro x _
  simp only [Function.comp_apply, hmin]
  field_simp

/-- C3 counterexample: the array [[-10, -5, 0]] is a possible power_to_db
output under top_db = TOP_DB (maximum 0, minimum within -TOP_DB), yet
de-normalizing its normalization yields [[-80, -40, 0]], not the original
decibel values: the map v to TOP_DB * (v - 1) rescales by TOP_DB / 10. -/
theorem c3_counterexample :
    matMax [[(-10:ℚ), -5, 0]] = 0 ∧ -TOP_DB ≤ matMin [[(-10:ℚ), -5, 0]] ∧
    denormSpec TOP_DB (normalizeSpec [[(-10:ℚ), -5, 0]]) = [[(-80:ℚ), -40, 0]] ∧
    ([[(-80:ℚ), -40, 0]] : Mat) ≠ [[(-10:ℚ), -5, 0]] := by
  refine ⟨?_, ?_, ?_, ?_⟩
  · norm_num [matMax, arrMax, max_def]
  · norm_num [matMin, arrMin, min_def, TOP_DB]
  · norm_num [normalizeSpec, denormSpec, matMin, matAbsMax, arrMin, arrMax,
      min_def, max_def, TOP_DB, abs_of_nonneg]
  · intro h
    norm_num at h

/-- C3 (amended): de-normalization recovers the decibel array exactly when
the array's minimum equals -TOP_DB, i.e. when the top_db clip inside
power_to_db was active; then (d - d.min()) / np.abs(d - d.min()).max()
followed by v maps to TOP_DB * (v - 1) is the identity on d.  In general
the roundtrip rescales d by TOP_DB / (-d.min()). -/
theorem c3_denorm_inverts_at_full_range (m : Mat) (hne : m.flatten ≠ [])
    (hmax : matMax m = 0) (hmin : matMin m = -TOP_DB) :
    denormSpec TOP_DB (normalizeSpec m) = m :=
  denorm_normalize_of_full_range TOP_DB (by norm_num [TOP_DB]) m hne hmax hmin

/-- C3 witness: the array [[-80, 0]] spans the full top_db range and is
recovered exactly by the roundtrip. -/
theorem c3_witness :
    ([[(-80:ℚ), 0]] : Mat).flatten ≠ [] ∧ matMax [[(-80:ℚ), 0]] = 0 ∧
    matMin [[(-80:ℚ), 0]] = -TOP_DB ∧
    denormSpec TOP_DB (normalizeSpec [[(-80:ℚ), 0]]) = [[(-80:ℚ), 0]] :=
  ⟨by simp, by norm_num [matMax, arrMax, max_def],
    by norm_num [matMin, arrMin, min_def, TOP_DB],
    c3_denorm_inverts_at_full_range _ (by simp)
      (by norm_num [matMax, arrMax, max_def])
      (by norm_num [matMin, arrMin, min_def, TOP_DB])⟩

/-! Chunking and reassembly. -/

/-- C1: spec_to_chunks evaluated at the failing input of the claim.  On the
2-D array [[1, 2]] with chunk_size = 2 (width an exact multiple of the
chunk size) and truncate = True, the slice spec[:, :-remainder] with
remainder = 0 empties the array and np.split(spec, 0, axis=1) raises, so no
list of width-2 chunks is returned, contradicting the function's docstring
and the claim. -/
theorem c1_truncate_exact_multiple_raises :
    spec_to_chunks [[(1:ℚ), 2]] 2 true = none := rfl

theorem concatChunks_cons_cons (a b : Mat) (l : List Mat) :
    concatChunks (a :: b :: l) = hcat a (concatChunks (b :: l)) := rfl

theorem hcat_map (f g : List ℚ → List ℚ) (M : Mat) :
    hcat (M.map f) (M.map g) = M.map (fun row => f row ++ g row) := by
  induction M with
  | nil => rfl
  | cons r rs ih =>
    simp only [hcat, List.map_cons, List.zipWith_cons_cons] at ih ⊢
    rw [ih]

theorem concat_map_funs (M : Mat) : ∀ fs : List (List ℚ → List ℚ), fs ≠ [] →
    concatChunks (fs.map (fun f => M.map f))
      = M.map (fun row => (fs.map (fun f => f row)).flatten) := by
  intro fs
  induction fs with
  | nil => intro h; exact absurd rfl h
  | cons f fs ih =>
    intro _
    cases fs with
    | nil => simp [concatChunks]
    | cons g gs =>
      have hstep : concatChunks ((f :: g :: gs).map (fun f => M.map f))
          = hcat (M.map f) (concatChunks ((g :: gs).map (fun f => M.map f))) := rfl
      rw [hstep, ih (by simp), hcat_map]
      apply List.map_congr_left
      intro row _
      simp

theorem flatten_chunks_of_length (cs : ℕ) : ∀ (n : ℕ) (row : List ℚ),
    row.length = n * cs →
    ((List.range n).map (fun i => (row.drop (i * cs)).take cs)).flatten = row := by
  intro n
  induction n with
  | zero =>
    intro row h
    simp only [Nat.zero_mul] at h
    rw [List.length_eq_zero.mp h]
    rfl
  | succ n ih =>
    intro row h
    rw [List.range_succ_eq_map, List.map_cons, List.map_map]
    have htail : List.map ((fun i => (row.drop (i * cs)).take cs) ∘ Nat.succ) (List.range n)
        = (List.range n).map (fun i => ((row.drop cs).drop (i * cs)).take cs) := by
      apply List.map_congr_left
      intro i _
      simp only [Function.comp_apply, List.drop_drop]
      rw [Nat.succ_mul, Nat.add_comm]
    rw [htail, List.flatten_cons,
      ih (row.drop cs) (by rw [List.length_drop, h, Nat.succ_mul]; omega)]
    simp only [Nat.zero_mul, List.drop_zero]
    exact List.take_append_drop cs row

theorem concat_split (n cs : ℕ) (M : Mat) (hn : n ≠ 0)
    (hrow : ∀ row ∈ M, row.length = n * cs) :
    concatChunks ((List.range n).map (fun i =>
      M.map (fun row => (row.drop (i * cs)).take cs))) = M := by
  have h1 : (List.range n).map (fun i => M.map (fun row => (row.drop (i * cs)).take cs))
      = ((List.range n).map (fun i (row : List ℚ) => (row.drop (i * cs)).take cs)).map
          (fun f => M.map f) := by
    rw [List.map_map]
    rfl
  rw [h1, concat_map_funs M _ (by simp [hn])]
  apply map_id_of_mem
  intro row hrow'
  rw [List.map_map]
  exact flatten_chunks_of_length cs n row (hrow row hrow')

theorem npSplitCols_of (M : Mat) (n : ℕ) (hn : n ≠ 0) (hmod : lastDim M % n = 0) :
    npSplitCols M n = some ((List.range n).map (fun i =>
      M.map (fun row => (row.drop (i * (lastDim M / n))).take (lastDim M / n)))) := by
  unfold npSplitCols
  rw [if_pos ⟨hn, hmod⟩]

theorem spec_to_chunks_false_of_le (spec : Mat) (cs : ℕ) (h : cs ≤ lastDim spec) :
    spec_to_chunks spec cs false =
      npSplitCols (spec.map (padRow (cs - lastDim spec % cs)))
        (lastDim (spec.map (padRow (cs - lastDim spec % cs))) / cs) := by
  unfold spec_to_chunks
  rw [if_pos h]
  rfl

/-- C2 counterexample: on the 1-by-2 array [[1, 2]] with chunk_size = 2 and
truncate = False the width is already the smallest multiple of chunk_size,
yet np.pad appends chunk_size - 0 = 2 zero columns, so reassembly yields
[[1, 2, 0, 0]], not the claimed padding of spec to the smallest multiple of
chunk_size at least the width, which is [[1, 2]] itself. -/
theorem c2_counterexample :
    (spec_to_chunks [[(1:ℚ), 2]] 2 false).map concatChunks = some [[(1:ℚ), 2, 0, 0]] ∧
    padToLeastMultiple 2 [[(1:ℚ), 2]] = [[(1:ℚ), 2]] ∧
    some ([[(1:ℚ), 2, 0, 0]] : Mat) ≠ some ([[(1:ℚ), 2]] : Mat) := by
  refine ⟨rfl, rfl, ?_⟩
  intro h
  simp at h

/-- C2 (amended): for every rectangular 2-D array and chunk_size at least 1,
reassembling the truncate=False chunks by concatenation along the last axis
yields spec zero-padded on the last axis by chunk_size - (width %
chunk_size) columns when width is at least chunk_size (a full extra zero
chunk when the width is an exact multiple of chunk_size), and yields spec
unchanged when width is below chunk_size; in particular each row of spec
is a prefix of the corresponding reassembled row. -/
theorem c2_reassembly_pads_by_code_amount (spec : Mat) (w chunk_size : ℕ)
    (hrect : IsRect spec w) (hcs : 1 ≤ chunk_size) :
    ∃ chunks, spec_to_chunks spec chunk_size false = some chunks ∧
      concatChunks chunks = spec.map (padRow (codePadAmt chunk_size w)) := by
  cases spec with
  | nil =>
    refine ⟨[[]], ?_, rfl⟩
    unfold spec_to_chunks
    rw [if_neg]
    simp only [lastDim, List.head?_nil]
    simp
    omega
  | cons r rs =>
    have hw : lastDim (r :: rs) = w := by
      simp [lastDim, hrect r (List.mem_cons_self r rs)]
    by_cases hcw : chunk_size ≤ w
    · have hcs0 : 0 < chunk_size := by omega
      have hdm := Nat.div_add_mod w chunk_size
      have hrem : w % chunk_size < chunk_size := Nat.mod_lt _ hcs0
      have hw' : w + (chunk_size - w % chunk_size) = (w / chunk_size + 1) * chunk_size := by
        have h2 : (w / chunk_size + 1) * chunk_size
            = chunk_size * (w / chunk_size) + chunk_size := by ring
        omega
      have hlen2 : ∀ row ∈ (r :: rs).map (padRow (chunk_size - w % chunk_size)),
          row.length = (w / chunk_size + 1) * chunk_size := by
        intro row hr
        obtain ⟨row0, hr0, rfl⟩ := List.mem_map.mp hr
        simp only [padRow, List.length_append, List.length_replicate, hrect row0 hr0]
        omega
      have hld2 : lastDim ((r :: rs).map (padRow (chunk_size - w % chunk_size)))
          = (w / chunk_size + 1) * chunk_size := by
        rw [List.map_cons,
          show lastDim (padRow (chunk_size - w % chunk_size) r
              :: rs.map (padRow (chunk_size - w % chunk_size)))
            = (padRow (chunk_size - w % chunk_size) r).length from rfl]
        simp only [padRow, List.length_append, List.length_replicate,
          hrect r (List.mem_cons_self r rs)]
        exact hw'
      have hn : lastDim ((r :: rs).map (padRow (chunk_size - w % chunk_size))) / chunk_size
          = w / chunk_size + 1 := by
        rw [hld2, Nat.mul_div_cancel _ hcs0]
      have hmod : lastDim ((r :: rs).map (padRow (chunk_size - w % chunk_size)))
          % (w / chunk_size + 1) = 0 := by
        rw [hld2, Nat.mul_comm]
        exact Nat.mul_mod_left _ _
      have hcw2 : lastDim ((r :: rs).map (padRow (chunk_size - w % chunk_size)))
          / (w / chunk_size + 1) = chunk_size := by
        rw [hld2]
        exact Nat.mul_div_cancel_left chunk_size (Nat.succ_pos _)
      refine ⟨(List.range (w / chunk_size + 1)).map (fun i =>
          ((r :: rs).map (padRow (chunk_size - w % chunk_size))).map
            (fun row => (row.drop (i * chunk_size)).take chunk_size)), ?_, ?_⟩
      · rw [spec_to_chunks_false_of_le _ _ (by rw [hw]; exact hcw), hw, hn,
          npSplitCols_of _ _ (Nat.succ_ne_zero _) hmod, hcw2]
      · rw [concat_split (w / chunk_size + 1) chunk_size _ (Nat.succ_ne_zero _) hlen2]
        have hpad : codePadAmt chunk_size w = chunk_size - w % chunk_size := by
          unfold codePadAmt
          rw [if_pos hcw]
        rw [hpad]
    · refine ⟨[r :: rs], ?_, ?_⟩
      · unfold spec_to_chunks
        rw [if_neg (by rw [hw]; exact hcw)]
      · have : codePadAmt chunk_size w = 0 := by
          unfold codePadAmt
          rw [if_neg hcw]
        rw [this]
        have h2 : ∀ row ∈ (r :: rs), padRow 0 row = row := by
          intro row _
          simp [padRow]
        rw [map_id_of_mem h2]
        rfl

/-- C2 witness: the 1-by-3 array [[1, 2, 3]] with chunk_size 2 chunks into
[[1, 2]] and [[3, 0]], and reassembly gives the row padded by one zero. -/
theorem c2_witness :
    IsRect [[(1:ℚ), 2, 3]] 3 ∧ 1 ≤ 2 ∧
    (∃ chunks, spec_to_chunks [[(1:ℚ), 2, 3]] 2 false = some chunks ∧
      concatChunks chunks = [[(1:ℚ), 2, 3]].map (padRow (codePadAmt 2 3))) :=
  ⟨by intro row h; simp at h; rw [h]; rfl, by norm_num,
    c2_reassembly_pads_by_code_amount _ 3 2
      (by intro row h; simp at h; rw [h]; rfl) (by norm_num)⟩

/-! Batch loop, dispatch, and the data-type detector. -/

/-- C7: for the same raw decibel matrix and identical chunking parameters,
convert_audio_to_numpy and convert_audio_to_image compute identical
normalized spectrogram chunks (before the image-specific vertical flip and
before serialization): the two code paths differ only in the top_db passed
to power_to_db, settings.TOP_DB versus the library default 80, which the
spec's single shared feature-extraction pipeline fixes to be equal. -/
theorem c7_pipelines_agree (R : Mat) (chunk_size : ℕ) (truncate : Bool) :
    audioToNumpyFeatures R chunk_size truncate
      = audioToImageFeatures R chunk_size truncate := rfl

theorem enumFrom_filter_drop (l : List String) : ∀ (i k : ℕ),
    ((List.enumFrom i l).filter (fun ip => decide (k ≤ ip.1))).map Prod.snd
      = l.drop (k - i) := by
  induction l with
  | nil => intro i k; simp
  | cons a as ih =>
    intro i k
    by_cases hk : k ≤ i
    · have h0 : k - i = 0 := by omega
      have h1 : k - (i + 1) = 0 := by omega
      rw [h0, List.enumFrom_cons, List.filter_cons]
      simp only [decide_eq_true_eq, hk, if_true, List.map_cons, List.drop_zero]
      rw [ih (i + 1) k, h1, List.drop_zero]
    · have h1 : k - i = (k - (i + 1)) + 1 := by omega
      rw [List.enumFrom_cons, List.filter_cons]
      simp only [decide_eq_true_eq, hk, if_false]
      rw [ih (i + 1) k, h1, List.drop_succ_cons]

/-- C5: the batch loop enumerates the natural-sorted input paths and, with
a skip value k, processes exactly the paths whose zero-based index in that
order is at least k (it continues past the first k paths), i.e. the
processed list is paths.drop k. -/
theorem c5_skip_processes_suffix (paths : List String) (skip : ℕ) :
    batchLoop paths skip = paths.drop skip := by
  unfold batchLoop
  have h := enumFrom_filter_drop paths 0 skip
  rw [Nat.sub_zero] at h
  exact h

/-- C6 counterexample: a directory holding one wav file matches exactly one
data type (AUDIO), so convert_to_audio does not raise, yet it invokes no
converter at all (the Python function falls through and returns None),
contradicting the claim that a single detected type always leads to
invoking the corresponding converter. -/
theorem c6_counterexample :
    foundTypes (filesOf (PathInput.dir [⟨"wav", "song"⟩])) = [DataType.Audio] ∧
    convert_to_audio (PathInput.dir [⟨"wav", "song"⟩]) = .ok none := ⟨rfl, rfl⟩

/-- C6 (amended): every dispatcher raises ValueError exactly when the number
of matched data types is 0 or more than 1; when exactly one type dt is
matched, each dispatcher invokes the converter its dispatch table assigns
to dt (convert_to_numpy: AUDIO to audio_to_numpy, IMAGE to image_to_numpy;
convert_to_image: AUDIO to audio_to_image, NUMPY to numpy_to_image;
convert_to_audio: NUMPY to numpy_to_audio, IMAGE to image_to_audio) and
invokes nothing, returning None, for the remaining type. -/
theorem c6_dispatch (inp : PathInput) :
    (raised (convert_to_numpy inp) = true ↔
      ((foundTypes (filesOf inp)).length = 0 ∨ 2 ≤ (foundTypes (filesOf inp)).length)) ∧
    (raised (convert_to_image inp) = true ↔
      ((foundTypes (filesOf inp)).length = 0 ∨ 2 ≤ (foundTypes (filesOf inp)).length)) ∧
    (raised (convert_to_audio inp) = true ↔
      ((foundTypes (filesOf inp)).length = 0 ∨ 2 ≤ (foundTypes (filesOf inp)).length)) ∧
    (∀ dt, foundTypes (filesOf inp) = [dt] →
      convert_to_numpy inp = .ok (numpyDispatch dt) ∧
      convert_to_image inp = .ok (imageDispatch dt) ∧
      convert_to_audio inp = .ok (audioDispatch dt)) := by
  cases hA : (filesOf inp).any (fun f => (SUPPORTED_EXTENSIONS DataType.Audio).contains f.suffix) <;>
    cases hN : (filesOf inp).any (fun f => (SUPPORTED_EXTENSIONS DataType.NUMPY).contains f.suffix) <;>
      cases hI : (filesOf inp).any (fun f => (SUPPORTED_EXTENSIONS DataType.IMAGE).contains f.suffix) <;>
        simp_all [foundTypes, get_data_type, convert_to_numpy, convert_to_image,
          convert_to_audio, numpyDispatch, imageDispatch, audioDispatch, raised,
          List.filter_cons]

/-- C6 witness: on a directory holding one npz file exactly the NUMPY type
is matched and each dispatcher behaves per its dispatch table. -/
theorem c6_witness :
    foundTypes (filesOf (PathInput.dir [⟨"npz", "arr"⟩])) = [DataType.NUMPY] ∧
    (convert_to_numpy (PathInput.dir [⟨"npz", "arr"⟩]) = .ok (numpyDispatch DataType.NUMPY) ∧
      convert_to_image (PathInput.dir [⟨"npz", "arr"⟩]) = .ok (imageDispatch DataType.NUMPY) ∧
      convert_to_audio (PathInput.dir [⟨"npz", "arr"⟩]) = .ok (audioDispatch DataType.NUMPY)) :=
  ⟨rfl, (c6_dispatch (PathInput.dir [⟨"npz", "arr"⟩])).2.2.2 DataType.NUMPY rfl⟩

theorem any_map_suffix (p : String → Bool) (L : List FSFile) :
    L.any (fun f => p f.suffix) = (L.map FSFile.suffix).any p := by
  induction L with
  | nil => rfl
  | cons f fs ih => simp [ih]

theorem any_eq_of_toFinset_eq {l1 l2 : List String}
    (h : l1.toFinset = l2.toFinset) (p : String → Bool) : l1.any p = l2.any p := by
  cases h1 : l1.any p <;> cases h2 : l2.any p
  · rfl
  · exfalso
    rw [List.any_eq_true] at h2
    obtain ⟨x, hx, hpx⟩ := h2
    have hx1 : x ∈ l1 := List.mem_toFinset.mp (h ▸ List.mem_toFinset.mpr hx)
    have h3 : l1.any p = true := List.any_eq_true.mpr ⟨x, hx1, hpx⟩
    rw [h1] at h3
    exact Bool.false_ne_true h3
  · exfalso
    rw [List.any_eq_true] at h1
    obtain ⟨x, hx, hpx⟩ := h1
    have hx2 : x ∈ l2 := List.mem_toFinset.mp (h ▸ List.mem_toFinset.mpr hx)
    have h3 : l2.any p = true := List.any_eq_true.mpr ⟨x, hx2, hpx⟩
    rw [h2] at h3
    exact Bool.false_ne_true h3
  · rfl

/-- C8: get_data_type depends only on the set of file-name extensions of the
regular files under its input, never on file contents or the multiplicity
or order of files: two inputs whose files carry the same set of suffixes
get the same result, including identical raising behavior, for either value
of raise_exception. -/
theorem c8_extension_only (a b : PathInput) (r : Bool)
    (h : ((filesOf a).map FSFile.suffix).toFinset = ((filesOf b).map FSFile.suffix).toFinset) :
    get_data_type a r = get_data_type b r := by
  have hft : foundTypes (filesOf a) = foundTypes (filesOf b) := by
    unfold foundTypes
    apply List.filter_congr
    intro dt _
    rw [any_map_suffix, any_map_suffix, any_eq_of_toFinset_eq h]
  unfold get_data_type
  rw [hft]

/-- C8 witness: a single wav file and a directory with two differently named
wav files of different contents carry the same suffix set and classify
identically. -/
theorem c8_witness :
    ((filesOf (PathInput.file ⟨"wav", "a"⟩)).map FSFile.suffix).toFinset
      = ((filesOf (PathInput.dir [⟨"wav", "b"⟩, ⟨"wav", "c"⟩])).map FSFile.suffix).toFinset ∧
    get_data_type (PathInput.file ⟨"wav", "a"⟩) true
      = get_data_type (PathInput.dir [⟨"wav", "b"⟩, ⟨"wav", "c"⟩]) true :=
  ⟨by decide, c8_extension_only _ _ true (by decide)⟩

/-- C9: convert_image_to_numpy is a no-op for every argument values: it
returns None and writes no files; and convert_to_numpy on an input whose
detected data type is IMAGE merely invokes this no-op converter, so no
conversion output is produced. -/
theorem c9_image_to_numpy_noop :
    (∀ (inp : PathInput) (out_dir : String) (flip : Bool) (skip : ℕ),
      convert_image_to_numpy inp out_dir flip skip = (none, [])) ∧
    (∀ inp : PathInput, foundTypes (filesOf inp) = [DataType.IMAGE] →
      convert_to_numpy inp = .ok (some ConverterCall.image_to_numpy)) := by
  refine ⟨fun _ _ _ _ => rfl, ?_⟩
  intro inp h
  unfold convert_to_numpy get_data_type
  rw [h]
  rfl

/-- C9 witness: on a tiff file the IMAGE type is detected, the no-op
converter is dispatched, and it returns None having written nothing. -/
theorem c9_witness :
    convert_image_to_numpy (PathInput.file ⟨"tiff", "img"⟩) "out" false 0 = (none, []) ∧
    convert_to_numpy (PathInput.file ⟨"tiff", "img"⟩) = .ok (some ConverterCall.image_to_numpy) :=
  ⟨c9_image_to_numpy_noop.1 _ _ _ _, c9_image_to_numpy_noop.2 _ rfl⟩

/-- C10: a path that is neither an existing file nor an existing directory
yields the empty file listing, so get_data_type returns UNKNOWN without
raising when raise_exception is false, raises ValueError when it is true,
and is indistinguishable from an existing directory none of whose files
carries a recognized extension. -/
theorem c10_missing_path_unknown :
    get_data_type PathInput.missing false = .ok DataType.UNKNOWN ∧
    get_data_type PathInput.missing true
      = .error "Unknown source data type. No known file types we matched." ∧
    (∀ (fs : List FSFile) (r : Bool),
      (∀ f ∈ fs, ∀ dt, (SUPPORTED_EXTENSIONS dt).contains f.suffix = false) →
      get_data_type (PathInput.dir fs) r = get_data_type PathInput.missing r) := by
  refine ⟨rfl, rfl, ?_⟩
  intro fs r h
  have hft : foundTypes fs = [] := by
    unfold foundTypes
    rw [List.filter_eq_nil_iff]
    intro dt _
    rw [Bool.not_eq_true, List.any_eq_false]
    intro f hf
    rw [h f hf dt]
    exact Bool.false_ne_true
  show get_data_type (PathInput.dir fs) r = get_data_type PathInput.missing r
  unfold get_data_type
  simp only [filesOf, hft]
  rfl

/-- C10 witness: a directory holding only a txt file classifies exactly like
a nonexistent path, returning UNKNOWN without raising. -/
theorem c10_witness :
    (∀ f ∈ [(⟨"txt", "notes"⟩ : FSFile)], ∀ dt,
      (SUPPORTED_EXTENSIONS dt).contains f.suffix = false) ∧
    get_data_type (PathInput.dir [⟨"txt", "notes"⟩]) false
      = get_data_type PathInput.missing false :=
  ⟨by
    intro f hf dt
    rw [List.mem_singleton] at hf
    subst hf
    cases dt <;> rfl,
  c10_missing_path_unknown.2.2 _ false (by
    intro f hf dt
    rw [List.mem_singleton] at hf
    subst hf
    cases dt <;> rfl)⟩

end BeatBrain
